import Mathlib

/-!
Shallow embedding of the CHIP-8-style virtual CPU of `src/cpu.rs`.

Machine integers are modelled as `Nat`:
  * registers hold `u8` values (byte-valued in every reachable state),
  * memory is 4096 bytes, modelled as a total function `Nat → Nat` whose
    out-of-range reads never happen because every array access of the Rust
    code is modelled with its explicit bounds check,
  * the stack holds `u16` values, the `as u16` cast on push is `% 65536`.

Every Rust `panic!` site (explicit panics, `todo!`, and the implicit
bounds-check panics of array/slice indexing) is modelled as an `Except`
error carrying a `Panic` value naming the panic site.
-/

/-- The distinct panic sites of `src/cpu.rs`.  `indexOutOfBounds` is the
implicit panic raised by a failed array/slice bounds check; the other
constructors correspond to the explicit `panic!`/`todo!` calls. -/
inductive Panic where
  /-- cpu.rs line 88: the explicit panic in `CPU::call`. -/
  | stackOverflow : Panic
  /-- cpu.rs line 103: the explicit panic in `CPU::ret`. -/
  | stackUnderflow : Panic
  /-- cpu.rs line 34: the explicit panic in `CPU::write_system_mem`. -/
  | memoryWriteOutOfBounds : Panic
  /-- the implicit panic of a failed array/slice bounds check. -/
  | indexOutOfBounds : Panic
  /-- cpu.rs line 124: the `todo!` for unimplemented opcodes. -/
  | unimplementedOpcode : Panic
deriving DecidableEq, Repr

/-- The CPU state of `src/cpu.rs` (`struct CPU`). -/
structure CPU where
  /-- `reg: [u8; 16]` — 16 general purpose registers. -/
  reg : Nat → Nat
  /-- `mem: [u8; 4096]` — 4K of RAM. -/
  mem : Nat → Nat
  /-- `pc: usize` — program counter. -/
  pc : Nat
  /-- `stack: [u16; 16]` — call stack. -/
  stack : Nat → Nat
  /-- `sp: usize` — stack pointer. -/
  sp : Nat

/-- `RES_SYS_MEM`: address space reserved for system memory. -/
def RES_SYS_MEM : Nat := 0x100

namespace CPU

/-- `CPU::new`: all-zero state. -/
def new : CPU :=
  { reg := fun _ => 0, mem := fun _ => 0, pc := 0, stack := fun _ => 0, sp := 0 }

/-- `mem[start + k] = ops[k]` for each `k < ops.length`
(the effect of `copy_from_slice` on the `start..start+len` subslice). -/
def writeBytes (m : Nat → Nat) (start : Nat) : List Nat → (Nat → Nat)
  | [] => m
  | b :: rest => writeBytes (fun a => if a = start then b else m a) (start + 1) rest

/-- `CPU::write_system_mem`: explicit bound check (`ops.len() > RES_SYS_MEM`
panics), then copy into `mem[0..len]`; the copy itself is always in range
since `len ≤ 0x100 ≤ 4096`. -/
def write_system_mem (cpu : CPU) (ops : List Nat) : Except Panic CPU :=
  if ops.length > RES_SYS_MEM then
    .error .memoryWriteOutOfBounds
  else
    .ok { cpu with mem := writeBytes cpu.mem 0x000 ops }

/-- `CPU::write_prog_mem`: no explicit bound check; the slice
`mem[0x100..0x100+len]` panics (bounds check) when the stop index exceeds
4096, otherwise the bytes are copied. -/
def write_prog_mem (cpu : CPU) (ops : List Nat) : Except Panic CPU :=
  if RES_SYS_MEM + ops.length > 4096 then
    .error .indexOutOfBounds
  else
    .ok { cpu with mem := writeBytes cpu.mem RES_SYS_MEM ops }

/-- `CPU::read_opcode`: big-endian combination of `mem[pc]` and `mem[pc+1]`,
each read carrying its bounds check. -/
def read_opcode (cpu : CPU) : Except Panic Nat :=
  if cpu.pc < 4096 then
    if cpu.pc + 1 < 4096 then
      .ok ((cpu.mem cpu.pc <<< 8) ||| cpu.mem (cpu.pc + 1))
    else
      .error .indexOutOfBounds
  else
    .error .indexOutOfBounds

/-- `CPU::decode`: split a 16-bit opcode into its four nibbles `(c, x, y, d)`. -/
def decode (opcode : Nat) : Nat × Nat × Nat × Nat :=
  ( (opcode &&& 0xF000) >>> 12
  , (opcode &&& 0x0F00) >>> 8
  , (opcode &&& 0x00F0) >>> 4
  , (opcode &&& 0x000F) >>> 0 )

/-- `CPU::call`: guard `sp > stack.len()` (i.e. `sp > 16`) raises the
explicit "Stack Overflow" panic; then `stack[sp] = pc as u16` carries the
bounds check `sp < 16`; then `sp += 1` and `pc = addr`. -/
def call (cpu : CPU) (addr : Nat) : Except Panic CPU :=
  if cpu.sp > 16 then
    .error .stackOverflow
  else if cpu.sp < 16 then
    .ok { cpu with
          stack := fun i => if i = cpu.sp then cpu.pc % 65536 else cpu.stack i,
          sp := cpu.sp + 1,
          pc := addr }
  else
    .error .indexOutOfBounds

/-- `CPU::ret`: guard `sp == 0` raises the explicit "Stack Underflow!"
panic; then `sp -= 1` and `pc = stack[sp]` with its bounds check. -/
def ret (cpu : CPU) : Except Panic CPU :=
  if cpu.sp = 0 then
    .error .stackUnderflow
  else if cpu.sp - 1 < 16 then
    .ok { cpu with sp := cpu.sp - 1, pc := cpu.stack (cpu.sp - 1) }
  else
    .error .indexOutOfBounds

/-- `CPU::add_xy`: reads `reg[x]` and `reg[y]` (bounds checks `x < 16`,
`y < 16`), stores the `u8` wrapping sum in `reg[x]`, then unconditionally
rewrites the carry flag `reg[0xF]` (1 on overflow, 0 otherwise). -/
def add_xy (cpu : CPU) (x y : Nat) : Except Panic CPU :=
  if x < 16 then
    if y < 16 then
      .ok (let lhs := cpu.reg x
           let rhs := cpu.reg y
           let wrapped_val := (rhs + lhs) % 256
           let overflow := 255 < rhs + lhs
           let reg1 := fun i => if i = x then wrapped_val else cpu.reg i
           let reg2 := fun i => if i = 0xF then (if overflow then 1 else 0) else reg1 i
           { cpu with reg := reg2 })
    else
      .error .indexOutOfBounds
  else
    .error .indexOutOfBounds

/-- Outcome of one iteration of the `loop` in `CPU::run`: either the
`return` of the HALT arm was taken, or the loop continues. -/
inductive StepRes where
  | halted : CPU → StepRes
  | running : CPU → StepRes

/-- The CPU state carried by a `StepRes`. -/
def StepRes.state : StepRes → CPU
  | .halted c => c
  | .running c => c

/-- `self.pc += 2`: the advance performed right after the fetch. -/
def advance (cpu : CPU) : CPU :=
  { cpu with pc := cpu.pc + 2 }

/-- One iteration of the `loop` body of `CPU::run`: fetch, advance the
program counter by 2, decode, dispatch (`nnn` is the low 12 bits). -/
def step (cpu : CPU) : Except Panic StepRes :=
  match read_opcode cpu with
  | .error p => .error p
  | .ok opcode =>
    match decode opcode with
    | (0, 0, 0, 0) => .ok (.halted (advance cpu))
    | (0, 0, 0xE, 0xE) => (ret (advance cpu)).map .running
    | (0x2, _, _, _) => (call (advance cpu) (opcode &&& 0x0FFF)).map .running
    | (0x8, x, y, 0x4) => (add_xy (advance cpu) x y).map .running
    | _ => .error .unimplementedOpcode

/-- `CPU::run`, fuel-bounded: `none` when the fuel runs out with the loop
still running, otherwise the panic or the state at HALT. -/
def runFuel : Nat → CPU → Option (Except Panic CPU)
  | 0, _ => none
  | fuel + 1, cpu =>
    match step cpu with
    | .error p => some (.error p)
    | .ok (.halted c) => some (.ok c)
    | .ok (.running c) => runFuel fuel c

/-- The state after `n` iterations of the run loop, provided the loop is
still running (`none` on halt or panic before the `n`-th iteration ends).
A `some` result is a state at which the next iteration begins by fetching. -/
def stepsRunning : Nat → CPU → Option CPU
  | 0, cpu => some cpu
  | n + 1, cpu =>
    match step cpu with
    | .ok (.running c) => stepsRunning n c
    | _ => none

end CPU

/-! ### Observers and concrete machine states used by the theorems. -/

/-- Observable outcome of a bounded run: register 0, register 0xF and the
stack pointer of the final state (the externally observable results). -/
def obsFinal (r : Option (Except Panic CPU)) : Option (Nat × Nat × Nat) :=
  match r with
  | some (.ok c) => some (c.reg 0, c.reg 15, c.sp)
  | _ => none

/-- The panic of a bounded run, when it ended in one. -/
def panicOf (r : Option (Except Panic CPU)) : Option Panic :=
  match r with
  | some (.error p) => some p
  | _ => none

/-- The final state of a bounded run that ended at HALT (dummy otherwise). -/
def finalOf (r : Option (Except Panic CPU)) : CPU :=
  match r with
  | some (.ok c) => c
  | _ => CPU.new

/-- Modelled from the spec (loader register seeding, out of scope under
`src/`): direct indexed write of one register, `cpu.reg[idx] = val`. -/
def setReg (cpu : CPU) (idx val : Nat) : CPU :=
  { cpu with reg := fun i => if i = idx then val else cpu.reg i }

/-- C1 scenario: `reg0 = 250`, `reg1 = 20`, system memory holds a single
ADD (`0x8014`) followed by HALT (`0x0000`). -/
def c1init : CPU :=
  setReg (setReg (finalOf (some ((CPU.new.write_system_mem [0x80, 0x14])))) 0 250) 1 20

/-- Final state of the C1 scenario run. -/
def c1fin : CPU := finalOf (CPU.runFuel 3 c1init)

/-- C2 scenario: system memory holds a single self-CALL (`0x2000`), so
every iteration pushes one more return address and jumps back to 0. -/
def c2init : CPU := finalOf (some (CPU.new.write_system_mem [0x20, 0x00]))

/-- C4 counterexample machine: system memory holds `0x2FFF`, a CALL whose
target `nnn = 0xFFF = 4095` exceeds 4094. -/
def c4start : CPU := finalOf (some (CPU.new.write_system_mem [0x2F, 0xFF]))

/-- C5 counterexample machine: system memory holds `0x2101`, a CALL whose
target `nnn = 0x101 = 257` is odd. -/
def c5start : CPU := finalOf (some (CPU.new.write_system_mem [0x21, 0x01]))

/-- C5 witness machine: every byte is `0x84`, so every fetched opcode is
the ADD `0x8484` and no CALL opcode occurs. -/
def evenDemo : CPU := { CPU.new with mem := fun _ => 0x84 }

/-- C6 scenario: two CALLs to 0x100 then HALT in the system region; two
ADDs (`reg0 += reg1`) then RETURN at 0x100; `reg0 = 5`, `reg1 = 10`. -/
def c6init : CPU :=
  setReg
    (setReg
      (finalOf (some ((CPU.new.write_system_mem [0x21, 0x00, 0x21, 0x00, 0x00, 0x00]).bind
        (fun c => c.write_prog_mem [0x80, 0x14, 0x80, 0x14, 0x00, 0xEE]))))
      0 5)
    1 10

/-- Final state of the C6 scenario run. -/
def c6fin : CPU := finalOf (CPU.runFuel 20 c6init)

/-- Result of `add_xy` on the C1 registers, used by witnesses. -/
def addDemo : CPU := finalOf (some (CPU.add_xy c1init 0 1))

/-- A state with one entry on the call stack, used by the C8 witness. -/
def retDemo : CPU :=
  { CPU.new with sp := 1, stack := fun i => if i = 0 then 42 else 0 }

/-- Result of an ADD on the fresh CPU, used by the C9 witness. -/
def add9 : CPU := finalOf (some (CPU.add_xy CPU.new 3 7))

/-- Result of a one-byte system-region write, used by the C3 witness. -/
def sysDemo : CPU := finalOf (some (CPU.write_system_mem CPU.new [18]))

/-- Result of a one-byte program-region write, used by the C3 witness. -/
def progDemo : CPU := finalOf (some (CPU.write_prog_mem CPU.new [18]))

/-- A state whose program counter points past 4094, used by the C4
witness. -/
def oobDemo : CPU := { CPU.new with pc := 4095 }

/-- The state after one step of the C5 witness machine. -/
def evenStep : CPU := (CPU.stepsRunning 1 evenDemo).getD CPU.new

/-- Final state of a run that halts immediately (all-zero memory), used
by the C10 witness. -/
def haltFin : CPU := finalOf (CPU.runFuel 1 CPU.new)

/-- Even-CALL-target hypothesis of the amended C5 claim: every 2-byte
opcode in memory whose group nibble is 2 has an even 12-bit address
operand `nnn`.  Stated on the very expressions the run loop computes. -/
def CallTargetsEven (m : Nat → Nat) : Prop :=
  ∀ p, p + 1 < 4096 →
    (CPU.decode ((m p <<< 8) ||| m (p + 1))).1 = 2 →
    (((m p <<< 8) ||| m (p + 1)) &&& 0x0FFF) % 2 = 0

/-- Evenness invariant of the amended C5 claim: the program counter and
every live call-stack entry are even. -/
def EvenState (c : CPU) : Prop :=
  c.pc % 2 = 0 ∧ ∀ i, i < c.sp → c.stack i % 2 = 0

/-! ### Arithmetic forms of the bitwise operations of the source. -/

/-- Masking with `0xF` is reduction mod 16. -/
theorem and15 (x : Nat) : x &&& 15 = x % 16 := by
  have h := Nat.and_pow_two_sub_one_eq_mod x 4
  norm_num at h
  exact h

/-- Masking with a shifted mask then shifting down equals shifting down
then masking. -/
theorem shift_and_shift (o m s : Nat) : (o &&& m <<< s) >>> s = (o >>> s) &&& m := by
  apply Nat.eq_of_testBit_eq
  intro i
  have hle : s ≤ s + i := Nat.le_add_right s i
  simp [Nat.testBit_shiftRight, Nat.testBit_shiftLeft, hle, Nat.add_sub_cancel_left]

/-- `CPU.decode` in div/mod form. -/
theorem decode_divmod (o : Nat) :
    CPU.decode o = (o / 4096 % 16, o / 256 % 16, o / 16 % 16, o % 16) := by
  unfold CPU.decode
  rw [show (0xF000 : Nat) = 15 <<< 12 from rfl, show (0x0F00 : Nat) = 15 <<< 8 from rfl,
      show (0x00F0 : Nat) = 15 <<< 4 from rfl]
  rw [shift_and_shift, shift_and_shift, shift_and_shift]
  rw [Nat.shiftRight_zero, and15, and15, and15, and15]
  rw [Nat.shiftRight_eq_div_pow, Nat.shiftRight_eq_div_pow, Nat.shiftRight_eq_div_pow]

/-- Big-endian byte combination in arithmetic form. -/
theorem byte_lor (hi lo : Nat) (h : lo < 256) : (hi <<< 8 ||| lo) = 256 * hi + lo := by
  have h2 : lo < 2 ^ 8 := by norm_num at h ⊢; exact h
  have key := Nat.mul_add_lt_is_or h2 hi
  rw [Nat.shiftLeft_eq]
  norm_num at key ⊢
  rw [Nat.mul_comm hi 256]
  exact key.symm

/-- Masking with `0x0FFF` is reduction mod 4096. -/
theorem and_4095 (o : Nat) : o &&& 4095 = o % 4096 := by
  have h := Nat.and_pow_two_sub_one_eq_mod o 12
  norm_num at h
  exact h

/-- Shifted-or of a small addend in additive form. -/
theorem lor_shift_add (a b s : Nat) (h : b < 2 ^ s) : a <<< s ||| b = a <<< s + b := by
  rw [Nat.shiftLeft_eq, Nat.mul_comm]
  exact (Nat.mul_add_lt_is_or h a).symm

/-! ### Basic lemmas about the embedded operations. -/

/-- Addresses below the write window are untouched by `writeBytes`. -/
theorem writeBytes_lt (ops : List Nat) : ∀ (m : Nat → Nat) (start a : Nat), a < start →
    CPU.writeBytes m start ops a = m a := by
  induction ops with
  | nil => intro m start a _; rfl
  | cons b rest ih =>
    intro m start a ha
    show CPU.writeBytes (fun i => if i = start then b else m i) (start + 1) rest a = m a
    rw [ih _ (start + 1) a (by omega)]
    simp [Nat.ne_of_lt ha]

/-- `writeBytes` stores `ops[k]` at `start + k`. -/
theorem writeBytes_get (ops : List Nat) : ∀ (m : Nat → Nat) (start k : Nat),
    k < ops.length → CPU.writeBytes m start ops (start + k) = ops.getD k 0 := by
  induction ops with
  | nil => intro m start k hk; simp at hk
  | cons b rest ih =>
    intro m start k hk
    show CPU.writeBytes (fun i => if i = start then b else m i) (start + 1) rest (start + k) =
      (b :: rest).getD k 0
    match k with
    | 0 =>
      show CPU.writeBytes (fun i => if i = start then b else m i) (start + 1) rest start = b
      rw [writeBytes_lt rest _ (start + 1) start (by omega)]
      simp
    | k' + 1 =>
      have : start + (k' + 1) = (start + 1) + k' := by omega
      rw [this, ih _ (start + 1) k' (by simpa using hk)]
      simp

/-- A successful fetch implies the program counter left room for both
bytes, and returns their big-endian combination. -/
theorem read_opcode_ok {cpu : CPU} {op : Nat} (h : CPU.read_opcode cpu = .ok op) :
    cpu.pc + 1 < 4096 ∧ op = (cpu.mem cpu.pc <<< 8) ||| cpu.mem (cpu.pc + 1) := by
  unfold CPU.read_opcode at h
  split at h
  · split at h
    · exact ⟨by omega, by injection h with h'; exact h'.symm⟩
    · exact absurd h (by simp)
  · exact absurd h (by simp)

/-- A fetch with the program counter beyond 4094 is the implicit
bounds-check panic. -/
theorem read_opcode_oob {cpu : CPU} (h : 4094 < cpu.pc) :
    CPU.read_opcode cpu = .error .indexOutOfBounds := by
  unfold CPU.read_opcode
  split
  · split
    · omega
    · rfl
  · rfl

/-- `CPU::call` never modifies memory. -/
theorem call_mem {cpu : CPU} {addr : Nat} {c' : CPU} (h : CPU.call cpu addr = .ok c') :
    c'.mem = cpu.mem := by
  unfold CPU.call at h
  split at h
  · exact absurd h (by simp)
  · split at h
    · injection h with h'
      subst h'
      rfl
    · exact absurd h (by simp)

/-- `CPU::ret` never modifies memory. -/
theorem ret_mem {cpu c' : CPU} (h : CPU.ret cpu = .ok c') : c'.mem = cpu.mem := by
  unfold CPU.ret at h
  split at h
  · exact absurd h (by simp)
  · split at h
    · injection h with h'
      subst h'
      rfl
    · exact absurd h (by simp)

/-- `CPU::add_xy` never modifies memory. -/
theorem add_xy_mem {cpu : CPU} {x y : Nat} {c' : CPU} (h : CPU.add_xy cpu x y = .ok c') :
    c'.mem = cpu.mem := by
  unfold CPU.add_xy at h
  split at h
  · split at h
    · injection h with h'
      subst h'
      rfl
    · exact absurd h (by simp)
  · exact absurd h (by simp)

/-- Dispatch form of `CPU.step` after a successful fetch. -/
theorem step_eq (cpu : CPU) (opcode : Nat) (hro : CPU.read_opcode cpu = .ok opcode) :
    CPU.step cpu =
      match CPU.decode opcode with
      | (0, 0, 0, 0) => .ok (.halted (CPU.advance cpu))
      | (0, 0, 0xE, 0xE) => (CPU.ret (CPU.advance cpu)).map .running
      | (0x2, _, _, _) => (CPU.call (CPU.advance cpu) (opcode &&& 0x0FFF)).map .running
      | (0x8, x, y, 0x4) => (CPU.add_xy (CPU.advance cpu) x y).map .running
      | _ => .error .unimplementedOpcode := by
  unfold CPU.step
  rw [hro]

/-- A step that did not fetch successfully is the fetch panic. -/
theorem step_fetch_err (cpu : CPU) (p : Panic) (hro : CPU.read_opcode cpu = .error p) :
    CPU.step cpu = .error p := by
  unfold CPU.step
  rw [hro]

/-- One loop iteration never modifies memory. -/
theorem step_mem {cpu : CPU} {r : CPU.StepRes} (h : CPU.step cpu = .ok r) :
    r.state.mem = cpu.mem := by
  cases hro : CPU.read_opcode cpu with
  | error p => rw [step_fetch_err cpu p hro] at h; exact absurd h (by simp)
  | ok opcode =>
    rw [step_eq cpu opcode hro] at h
    split at h
    · injection h with h'
      subst h'
      rfl
    · cases hr : CPU.ret (CPU.advance cpu) with
      | error p => rw [hr] at h; exact absurd h (by simp [Except.map])
      | ok c =>
        rw [hr] at h
        simp only [Except.map] at h
        injection h with h'
        subst h'
        exact (ret_mem hr).trans rfl
    · cases hc : CPU.call (CPU.advance cpu) (opcode &&& 0x0FFF) with
      | error p => rw [hc] at h; exact absurd h (by simp [Except.map])
      | ok c =>
        rw [hc] at h
        simp only [Except.map] at h
        injection h with h'
        subst h'
        exact (call_mem hc).trans rfl
    · rename_i x y heq
      cases ha : CPU.add_xy (CPU.advance cpu) x y with
      | error p => rw [ha] at h; exact absurd h (by simp [Except.map])
      | ok c =>
        rw [ha] at h
        simp only [Except.map] at h
        injection h with h'
        subst h'
        exact (add_xy_mem ha).trans rfl
    · exact absurd h (by simp)

/-- A fuel-bounded run that reaches HALT never modifies memory. -/
theorem runFuel_mem : ∀ (n : Nat) (cpu c' : CPU),
    CPU.runFuel n cpu = some (.ok c') → c'.mem = cpu.mem := by
  intro n
  induction n with
  | zero => intro cpu c' h; exact absurd h (by simp [CPU.runFuel])
  | succ n ih =>
    intro cpu c' h
    unfold CPU.runFuel at h
    cases hs : CPU.step cpu with
    | error p => rw [hs] at h; simp at h
    | ok r =>
      rw [hs] at h
      cases r with
      | halted c =>
        simp at h
        subst h
        exact step_mem hs
      | running c =>
        have h1 : c.mem = cpu.mem := step_mem hs
        have h2 : c'.mem = c.mem := ih c c' h
        rw [h2, h1]

/-- Any prefix of the run loop that is still running never modifies
memory. -/
theorem stepsRunning_mem : ∀ (n : Nat) (cpu c' : CPU),
    CPU.stepsRunning n cpu = some c' → c'.mem = cpu.mem := by
  intro n
  induction n with
  | zero =>
    intro cpu c' h
    simp [CPU.stepsRunning] at h
    rw [h]
  | succ n ih =>
    intro cpu c' h
    unfold CPU.stepsRunning at h
    cases hs : CPU.step cpu with
    | error p => rw [hs] at h; simp at h
    | ok r =>
      rw [hs] at h
      cases r with
      | halted c => simp at h
      | running c =>
        have h1 : c.mem = cpu.mem := step_mem hs
        have h2 : c'.mem = c.mem := ih c c' h
        rw [h2, h1]

/-- One running loop iteration preserves the evenness invariant, provided
every CALL opcode in memory has an even target. -/
theorem step_even {cpu c' : CPU} (hct : CallTargetsEven cpu.mem)
    (hes : EvenState cpu) (h : CPU.step cpu = .ok (.running c')) : EvenState c' := by
  obtain ⟨hpc, hstk⟩ := hes
  cases hro : CPU.read_opcode cpu with
  | error p => rw [step_fetch_err cpu p hro] at h; exact absurd h (by simp)
  | ok opcode =>
    obtain ⟨hlt, hop⟩ := read_opcode_ok hro
    rw [step_eq cpu opcode hro] at h
    split at h
    · exact absurd h (by simp)
    · cases hr : CPU.ret (CPU.advance cpu) with
      | error p => rw [hr] at h; exact absurd h (by simp [Except.map])
      | ok c =>
        rw [hr] at h
        simp only [Except.map] at h
        injection h with h'
        injection h' with h''
        subst h''
        unfold CPU.ret at hr
        split at hr
        · exact absurd hr (by simp)
        · split at hr
          · rename_i hsp0 hsp16
            injection hr with hr'
            subst hr'
            have hsp0' : ¬ cpu.sp = 0 := hsp0
            refine ⟨?_, ?_⟩
            · show cpu.stack (cpu.sp - 1) % 2 = 0
              exact hstk _ (by omega)
            · intro i hi
              have hi' : i < cpu.sp - 1 := hi
              exact hstk i (by omega)
          · exact absurd hr (by simp)
    · rename_i heq
      cases hc : CPU.call (CPU.advance cpu) (opcode &&& 0x0FFF) with
      | error p => rw [hc] at h; exact absurd h (by simp [Except.map])
      | ok c =>
        rw [hc] at h
        simp only [Except.map] at h
        injection h with h'
        injection h' with h''
        subst h''
        have hnnn : (opcode &&& 0x0FFF) % 2 = 0 := by
          have := hct cpu.pc hlt
          rw [← hop] at this
          apply this
          rw [hop] at heq
          rw [← hop] at heq
          rw [heq]
        unfold CPU.call at hc
        split at hc
        · exact absurd hc (by simp)
        · split at hc
          · injection hc with hc'
            subst hc'
            refine ⟨hnnn, ?_⟩
            intro i hi
            have hi' : i < cpu.sp + 1 := hi
            show (if i = cpu.sp then (cpu.pc + 2) % 65536 else cpu.stack i) % 2 = 0
            by_cases hieq : i = cpu.sp
            · simp only [hieq, if_pos]
              omega
            · rw [if_neg hieq]
              exact hstk i (by omega)
          · exact absurd hc (by simp)
    · rename_i x y heq
      cases ha : CPU.add_xy (CPU.advance cpu) x y with
      | error p => rw [ha] at h; exact absurd h (by simp [Except.map])
      | ok c =>
        rw [ha] at h
        simp only [Except.map] at h
        injection h with h'
        injection h' with h''
        subst h''
        unfold CPU.add_xy at ha
        split at ha
        · split at ha
          · injection ha with ha'
            subst ha'
            exact ⟨by show (cpu.pc + 2) % 2 = 0; omega, fun i hi => hstk i hi⟩
          · exact absurd ha (by simp)
        · exact absurd ha (by simp)
    · exact absurd h (by simp)

/-- The evenness invariant holds at every still-running loop boundary,
provided every CALL opcode in memory has an even target. -/
theorem stepsRunning_even : ∀ (n : Nat) (cpu c' : CPU), CallTargetsEven cpu.mem →
    EvenState cpu → CPU.stepsRunning n cpu = some c' → EvenState c' := by
  intro n
  induction n with
  | zero =>
    intro cpu c' _ hes h
    simp [CPU.stepsRunning] at h
    rw [← h]
    exact hes
  | succ n ih =>
    intro cpu c' hct hes h
    unfold CPU.stepsRunning at h
    cases hs : CPU.step cpu with
    | error p => rw [hs] at h; simp at h
    | ok r =>
      rw [hs] at h
      cases r with
      | halted c => simp at h
      | running c =>
        have hmem : c.mem = cpu.mem := step_mem hs
        exact ih c c' (by rw [hmem]; exact hct) (step_even hct hes hs) h

/-! ### Claim theorems. -/

/-- C7: for every 16-bit opcode `o`, decoding `o` into the four nibbles
`(c, x, y, d)` and recombining them as `(c<<12)|(x<<8)|(y<<4)|d`
reproduces `o` exactly; decoding is a pure function, so equal opcodes
always yield equal nibble tuples. -/
theorem C7_decode_roundtrip :
    (∀ o : Nat, o < 65536 →
      ((CPU.decode o).1 <<< 12) ||| ((CPU.decode o).2.1 <<< 8) |||
        ((CPU.decode o).2.2.1 <<< 4) ||| (CPU.decode o).2.2.2 = o) ∧
    (∀ o₁ o₂ : Nat, o₁ = o₂ → CPU.decode o₁ = CPU.decode o₂) := by
  constructor
  · intro o ho
    rw [decode_divmod]
    simp only
    have hd : o % 16 < 2 ^ 4 := by
      have h := Nat.mod_lt o (show 0 < 16 by norm_num)
      norm_num
      exact h
    have hb2 : (o / 16 % 16) <<< 4 + o % 16 < 2 ^ 8 := by
      simp only [Nat.shiftLeft_eq]
      norm_num
      omega
    have hb3 : (o / 256 % 16) <<< 8 + ((o / 16 % 16) <<< 4 + o % 16) < 2 ^ 12 := by
      simp only [Nat.shiftLeft_eq]
      norm_num
      omega
    rw [Nat.lor_assoc, Nat.lor_assoc]
    rw [lor_shift_add (o / 16 % 16) (o % 16) 4 hd]
    rw [lor_shift_add (o / 256 % 16) ((o / 16 % 16) <<< 4 + o % 16) 8 hb2]
    rw [lor_shift_add (o / 4096 % 16) ((o / 256 % 16) <<< 8 + ((o / 16 % 16) <<< 4 + o % 16)) 12 hb3]
    simp only [Nat.shiftLeft_eq]
    norm_num
    omega
  · intro o₁ o₂ h
    rw [h]

/-- C7 witness: the roundtrip at the concrete opcode `0x8231`. -/
theorem C7_decode_roundtrip_witness :
    ((CPU.decode 0x8231).1 <<< 12) ||| ((CPU.decode 0x8231).2.1 <<< 8) |||
      ((CPU.decode 0x8231).2.2.1 <<< 4) ||| (CPU.decode 0x8231).2.2.2 = 0x8231 :=
  C7_decode_roundtrip.1 0x8231 (by norm_num)

/-- C8: a RETURN executed when `stack_pointer == 0` is the fatal
StackUnderflow fault; otherwise RETURN decrements the stack pointer and
pops the most recently pushed program-counter value into the program
counter. -/
theorem C8_ret_semantics (cpu : CPU) :
    (cpu.sp = 0 → CPU.ret cpu = .error .stackUnderflow) ∧
    (0 < cpu.sp → cpu.sp ≤ 16 →
      CPU.ret cpu = .ok { cpu with sp := cpu.sp - 1, pc := cpu.stack (cpu.sp - 1) }) := by
  constructor
  · intro h
    unfold CPU.ret
    rw [if_pos h]
  · intro h1 h2
    unfold CPU.ret
    rw [if_neg (by omega), if_pos (by omega)]

/-- C8 witness: underflow on the fresh CPU, a successful pop on a state
with one stack entry. -/
theorem C8_ret_semantics_witness :
    CPU.ret CPU.new = .error .stackUnderflow ∧
    CPU.ret retDemo = .ok { retDemo with sp := retDemo.sp - 1, pc := retDemo.stack (retDemo.sp - 1) } :=
  ⟨(C8_ret_semantics CPU.new).1 rfl, (C8_ret_semantics retDemo).2 (by norm_num [retDemo]) (by norm_num [retDemo])⟩

/-- C9: after any ADD (the only carry-defining arithmetic opcode), for
every `x` and `y` including `x = 0xF`, register 0xF holds only 0 or 1. -/
theorem C9_carry_flag_boolean (cpu : CPU) (x y : Nat) (c' : CPU)
    (h : CPU.add_xy cpu x y = .ok c') : c'.reg 15 = 0 ∨ c'.reg 15 = 1 := by
  unfold CPU.add_xy at h
  split at h
  · split at h
    · injection h with h'
      subst h'
      dsimp only
      rw [if_pos rfl]
      by_cases hov : 255 < cpu.reg y + cpu.reg x
      · right
        rw [if_pos hov]
      · left
        rw [if_neg hov]
    · exact absurd h (by simp)
  · exact absurd h (by simp)

/-- C9 witness: the flag is boolean after a concrete ADD. -/
theorem C9_carry_flag_boolean_witness : add9.reg 15 = 0 ∨ add9.reg 15 = 1 :=
  C9_carry_flag_boolean CPU.new 3 7 add9 rfl

/-- C1: for every ADD opcode, the result stored in `registers[x]` is the
8-bit wrapping sum of `registers[x]` and `registers[y]`, and
`registers[0xF]` is unconditionally rewritten on every ADD: 1 when the
true mathematical sum exceeds 255, else 0; in particular seeding
`reg0 = 250`, `reg1 = 20` and running a single ADD to HALT yields
`reg0 = 14` and `reg[0xF] = 1`. -/
theorem C1_add_wrapping_and_flag :
    (∀ (cpu : CPU) (x y : Nat), x < 16 → y < 16 → ∀ c', CPU.add_xy cpu x y = .ok c' →
      ((x ≠ 15 → c'.reg x = (cpu.reg x + cpu.reg y) % 256) ∧
       c'.reg 15 = if 255 < cpu.reg x + cpu.reg y then 1 else 0)) ∧
    obsFinal (CPU.runFuel 3 c1init) = some (14, 1, 0) := by
  constructor
  · intro cpu x y hx hy c' h
    unfold CPU.add_xy at h
    rw [if_pos hx, if_pos hy] at h
    injection h with h'
    subst h'
    dsimp only
    constructor
    · intro hx15
      rw [if_neg hx15, if_pos rfl, Nat.add_comm]
    · rw [if_pos rfl, Nat.add_comm (cpu.reg y) (cpu.reg x)]
  · simp [c1init, setReg, finalOf, CPU.runFuel, CPU.step, CPU.read_opcode, decode_divmod,
          CPU.call, CPU.ret, CPU.add_xy, CPU.advance, CPU.new, CPU.write_system_mem,
          CPU.writeBytes, RES_SYS_MEM, byte_lor, and_4095, Except.map, obsFinal]

/-- C1 witness: the ADD register formula at the concrete C1 state. -/
theorem C1_add_wrapping_and_flag_witness :
    ((0 : Nat) ≠ 15 → addDemo.reg 0 = (c1init.reg 0 + c1init.reg 1) % 256) ∧
    addDemo.reg 15 = if 255 < c1init.reg 0 + c1init.reg 1 then 1 else 0 :=
  C1_add_wrapping_and_flag.1 c1init 0 1 (by norm_num) (by norm_num) addDemo rfl

set_option maxRecDepth 40000 in
set_option maxHeartbeats 1000000 in
/-- C2: the explicit "Stack Overflow" guard of `CPU::call` checks
`sp > 16` and thus never fires for any reachable stack pointer
(`sp ≤ 16`); on the 17th nested CALL (`sp = 16`) the fatal fault is the
implicit array bounds-check panic on `stack[16]`, not the StackOverflow
panic; no 17th stack entry is written (the run faults instead), and the
first 16 CALLs complete without fault. -/
theorem C2_stack_overflow_guard :
    (∀ (cpu : CPU) (addr : Nat), cpu.sp ≤ 16 → CPU.call cpu addr ≠ .error .stackOverflow) ∧
    panicOf (CPU.runFuel 17 c2init) = some .indexOutOfBounds ∧
    (CPU.stepsRunning 16 c2init).map CPU.sp = some 16 ∧
    panicOf (CPU.runFuel 16 c2init) = none ∧
    Panic.indexOutOfBounds ≠ Panic.stackOverflow := by
  refine ⟨?_, ?_, ?_, ?_, by simp⟩
  · intro cpu addr hsp hcontra
    unfold CPU.call at hcontra
    rw [if_neg (by omega)] at hcontra
    split at hcontra
    · exact absurd hcontra (by simp)
    · exact absurd hcontra (by simp)
  · simp [c2init, finalOf, CPU.runFuel, CPU.step, CPU.read_opcode, decode_divmod,
          CPU.call, CPU.ret, CPU.add_xy, CPU.advance, CPU.new, CPU.write_system_mem,
          CPU.writeBytes, RES_SYS_MEM, byte_lor, and_4095, Except.map, panicOf]
  · simp [c2init, finalOf, CPU.stepsRunning, CPU.step, CPU.read_opcode, decode_divmod,
          CPU.call, CPU.ret, CPU.add_xy, CPU.advance, CPU.new, CPU.write_system_mem,
          CPU.writeBytes, RES_SYS_MEM, byte_lor, and_4095, Except.map]
  · simp [c2init, finalOf, CPU.runFuel, CPU.step, CPU.read_opcode, decode_divmod,
          CPU.call, CPU.ret, CPU.add_xy, CPU.advance, CPU.new, CPU.write_system_mem,
          CPU.writeBytes, RES_SYS_MEM, byte_lor, and_4095, Except.map, panicOf]

/-- C2 witness: the StackOverflow guard does not fire on a reachable
state. -/
theorem C2_stack_overflow_guard_witness :
    CPU.call CPU.new 0 ≠ .error .stackOverflow :=
  C2_stack_overflow_guard.1 CPU.new 0 (by decide)

/-- C3: a loader write is fatally rejected exactly when it would exceed
its bound — `write_system_mem` iff the byte sequence is longer than
0x100, `write_prog_mem` iff 0x100 plus the length exceeds 4096 (the
latter via the implicit slice bounds panic) — and otherwise the bytes
are written at their destination addresses. -/
theorem C3_loader_bounds (cpu : CPU) (ops : List Nat) :
    (CPU.write_system_mem cpu ops = .error .memoryWriteOutOfBounds ↔ 256 < ops.length) ∧
    (CPU.write_prog_mem cpu ops = .error .indexOutOfBounds ↔ 4096 < 256 + ops.length) ∧
    (∀ c', CPU.write_system_mem cpu ops = .ok c' →
      ∀ k, k < ops.length → c'.mem k = ops.getD k 0) ∧
    (∀ c', CPU.write_prog_mem cpu ops = .ok c' →
      ∀ k, k < ops.length → c'.mem (256 + k) = ops.getD k 0) := by
  refine ⟨?_, ?_, ?_, ?_⟩
  · unfold CPU.write_system_mem
    split
    · rename_i hgt
      constructor
      · intro _
        simp [RES_SYS_MEM] at hgt
        omega
      · intro _
        rfl
    · rename_i hle
      constructor
      · intro hcontra
        exact absurd hcontra (by simp)
      · intro hlen
        exfalso
        simp [RES_SYS_MEM] at hle
        omega
  · unfold CPU.write_prog_mem
    split
    · rename_i hgt
      constructor
      · intro _
        simp [RES_SYS_MEM] at hgt
        omega
      · intro _
        rfl
    · rename_i hle
      constructor
      · intro hcontra
        exact absurd hcontra (by simp)
      · intro hlen
        exfalso
        simp [RES_SYS_MEM] at hle
        omega
  · intro c' h k hk
    unfold CPU.write_system_mem at h
    split at h
    · exact absurd h (by simp)
    · injection h with h'
      subst h'
      show CPU.writeBytes cpu.mem 0 ops k = ops.getD k 0
      have hw := writeBytes_get ops cpu.mem 0 k hk
      simpa using hw
  · intro c' h k hk
    unfold CPU.write_prog_mem at h
    split at h
    · exact absurd h (by simp)
    · injection h with h'
      subst h'
      exact writeBytes_get ops cpu.mem RES_SYS_MEM k hk

/-- C3 witness: a 257-byte system write and a 3841-byte program write are
rejected; one-byte writes land at addresses 0 and 0x100. -/
theorem C3_loader_bounds_witness :
    CPU.write_system_mem CPU.new (List.replicate 257 0) = .error .memoryWriteOutOfBounds ∧
    sysDemo.mem 0 = 18 ∧
    CPU.write_prog_mem CPU.new (List.replicate 3841 0) = .error .indexOutOfBounds ∧
    progDemo.mem 256 = 18 :=
  ⟨(C3_loader_bounds CPU.new (List.replicate 257 0)).1.mpr
     (by rw [List.length_replicate]; norm_num),
   (C3_loader_bounds CPU.new [18]).2.2.1 sysDemo rfl 0 (by norm_num),
   (C3_loader_bounds CPU.new (List.replicate 3841 0)).2.1.mpr
     (by rw [List.length_replicate]; norm_num),
   (C3_loader_bounds CPU.new [18]).2.2.2 progDemo rfl 0 (by norm_num)⟩

/-- C4 counterexample: with `0x2FFF` (CALL 0xFFF) at address 0 the run
loop is still running after one step with `pc = 4095 > 4094`, so the next
fetch starts outside the claimed bound (and faults). -/
theorem C4_pc_bound_cex :
    (CPU.stepsRunning 1 c4start).map CPU.pc = some 4095 ∧
    ¬ (4095 ≤ 4094) ∧
    panicOf (CPU.runFuel 2 c4start) = some .indexOutOfBounds := by
  refine ⟨?_, by norm_num, ?_⟩
  · simp [c4start, finalOf, CPU.stepsRunning, CPU.step, CPU.read_opcode, decode_divmod,
          CPU.call, CPU.ret, CPU.add_xy, CPU.advance, CPU.new, CPU.write_system_mem,
          CPU.writeBytes, RES_SYS_MEM, byte_lor, and_4095, Except.map]
  · simp [c4start, finalOf, CPU.runFuel, CPU.step, CPU.read_opcode, decode_divmod,
          CPU.call, CPU.ret, CPU.add_xy, CPU.advance, CPU.new, CPU.write_system_mem,
          CPU.writeBytes, RES_SYS_MEM, byte_lor, and_4095, Except.map, panicOf]

/-- C4 amended: the run loop does not keep `pc ≤ 4094` at every fetch
start for every memory image (a CALL may target 0xFFF and the +2 advance
may run past the end); what holds is that every fetch that completes has
`pc ≤ 4094`, and a fetch with `pc > 4094` is the fatal bounds-check
fault, so every 2-byte opcode read that occurs stays inside the
4096-byte memory. -/
theorem C4_fetch_in_bounds (cpu : CPU) :
    (∀ op, CPU.read_opcode cpu = .ok op → cpu.pc ≤ 4094) ∧
    (4094 < cpu.pc → CPU.read_opcode cpu = .error .indexOutOfBounds) := by
  constructor
  · intro op h
    have := (read_opcode_ok h).1
    omega
  · intro h
    exact read_opcode_oob h

/-- C4 witness: the fresh CPU fetches in bounds; a pc of 4095 faults. -/
theorem C4_fetch_in_bounds_witness :
    CPU.new.pc ≤ 4094 ∧ CPU.read_opcode oobDemo = .error .indexOutOfBounds :=
  ⟨(C4_fetch_in_bounds CPU.new).1 0 rfl, (C4_fetch_in_bounds oobDemo).2 (by decide)⟩

/-- C5 counterexample: with `0x2101` (CALL 0x101) at address 0 the
program counter is odd (257) after one step, for a memory image the
loader may supply. -/
theorem C5_pc_even_cex :
    ((CPU.stepsRunning 1 c5start).map fun c => c.pc % 2) = some 1 := by
  simp [c5start, finalOf, CPU.stepsRunning, CPU.step, CPU.read_opcode, decode_divmod,
        CPU.call, CPU.ret, CPU.add_xy, CPU.advance, CPU.new, CPU.write_system_mem,
        CPU.writeBytes, RES_SYS_MEM, byte_lor, and_4095, Except.map]

/-- C5 amended: the program counter stays even across every step of the
run loop (+2 advance, CALL, RETURN) provided the memory image gives
every CALL opcode an even 12-bit target; a CALL with an odd `nnn` (see
the counterexample) breaks evenness. -/
theorem C5_pc_even_amended (n : Nat) (cpu c' : CPU) (hct : CallTargetsEven cpu.mem)
    (hes : EvenState cpu) (h : CPU.stepsRunning n cpu = some c') : c'.pc % 2 = 0 :=
  (stepsRunning_even n cpu c' hct hes h).1

/-- C5 witness: one step of an ADD-only machine keeps the pc even. -/
theorem C5_pc_even_amended_witness : evenStep.pc % 2 = 0 := by
  refine C5_pc_even_amended 1 evenDemo evenStep ?_ ?_ rfl
  · intro p hp h
    rw [show evenDemo.mem p = 0x84 from rfl, show evenDemo.mem (p + 1) = 0x84 from rfl] at h
    exact absurd h (by decide)
  · exact ⟨rfl, fun i hi => absurd hi (Nat.not_lt_zero i)⟩

/-- C6: with two CALLs to 0x100 then HALT in system memory, two ADDs then
RETURN at 0x100, and `reg0 = 5`, `reg1 = 10`, the run reaches HALT with
`reg0 = 45` and an empty call stack (`sp = 0`). -/
theorem C6_call_return_roundtrip :
    obsFinal (CPU.runFuel 10 c6init) = some (45, 0, 0) := by
  simp [c6init, setReg, finalOf, CPU.runFuel, CPU.step, CPU.read_opcode, decode_divmod,
        CPU.call, CPU.ret, CPU.add_xy, CPU.advance, CPU.new, CPU.write_system_mem,
        CPU.write_prog_mem, CPU.writeBytes, RES_SYS_MEM, byte_lor, and_4095, Except.map,
        Except.bind, obsFinal]

/-- C10: the run loop never modifies memory — each successful step, each
completed run, and each still-running prefix leaves the memory image
unchanged. -/
theorem C10_run_preserves_memory :
    (∀ (cpu : CPU) (r : CPU.StepRes), CPU.step cpu = .ok r → r.state.mem = cpu.mem) ∧
    (∀ (n : Nat) (cpu c' : CPU), CPU.runFuel n cpu = some (.ok c') → c'.mem = cpu.mem) ∧
    (∀ (n : Nat) (cpu c' : CPU), CPU.stepsRunning n cpu = some c' → c'.mem = cpu.mem) :=
  ⟨fun _ _ h => step_mem h, runFuel_mem, stepsRunning_mem⟩

/-- C10 witness: a completed one-step run leaves memory unchanged. -/
theorem C10_run_preserves_memory_witness : haltFin.mem = CPU.new.mem :=
  C10_run_preserves_memory.2.1 1 CPU.new haltFin rfl
